import Mathlib

/-!
# GCodeMaker line-annotation engine: a shallow embedding

This file embeds the annotation engine of `src/main.py` (the `describe_line`
method, its `_unwrap` helper and the reverse-annotation map built in
`set_profile`) into Lean, and proves the specification claims about it.

Modelling conventions:
* Python strings are `List Char` internally and `String` at the API surface.
* The annotation dictionary (a JSON-shaped Python dict) is an association
  list `Store`; a rule entry is either a plain string or an object with
  optional `desc` (string) and `sub` (nested mapping) fields, as in the
  on-disk schema.  Keys are looked up by first occurrence (a Python dict has
  unique keys, so any list with unique keys models it exactly).
* `describe_line` returns `Option String`: `some s` models the Python method
  returning the string `s`, `none` models it returning Python `None` (which
  the code does on the `%` marker when the matched entry has no `desc`).
* Whitespace and case handling are modelled for ASCII text, matching the
  behaviour of `str.strip`, `str.upper` and the `\s` regex class there.
-/

namespace GCM

/-- ASCII whitespace (codes 32, 9-13), the characters matched by Python's
`\s` and stripped by `str.strip()` on the ASCII text this engine handles. -/
def isSpaceC (c : Char) : Bool :=
  c.toNat = 32 || c.toNat = 9 || c.toNat = 10 || c.toNat = 13 ||
    c.toNat = 11 || c.toNat = 12

/-- The digit class `[0-9]` (codes 48-57). -/
def isDigitC (c : Char) : Bool :=
  48 ≤ c.toNat && c.toNat ≤ 57

/-- The character class `[A-Za-z]` (codes 65-90 and 97-122) used by every
letter group in the regexes. -/
def isAlphaC (c : Char) : Bool :=
  (65 ≤ c.toNat && c.toNat ≤ 90) || (97 ≤ c.toNat && c.toNat ≤ 122)

/-- ASCII upper-casing of one character (codes 97-122 map down by 32), the
effect of Python `str.upper()` on the ASCII text this engine handles. -/
def upChar (c : Char) : Char :=
  if 97 ≤ c.toNat ∧ c.toNat ≤ 122 then Char.ofNat (c.toNat - 32) else c

def upList (l : List Char) : List Char := l.map upChar

/-- `str.strip()` on a line: drop ASCII whitespace from both ends. -/
def pstrip (l : List Char) : List Char :=
  ((l.dropWhile isSpaceC).reverse.dropWhile isSpaceC).reverse

/-- `line.rstrip('\n')`. -/
def rstripNl (l : List Char) : List Char :=
  (l.reverse.dropWhile (fun c => c = '\n')).reverse

/-- `raw.rstrip('.')`, applied to each token before lookup. -/
def rstripDots (l : List Char) : List Char :=
  (l.reverse.dropWhile (fun c => c = '.')).reverse

/-- `", ".join(...)`. -/
def joinComma : List String → String
  | [] => ""
  | [a] => a
  | a :: rest => a ++ ", " ++ joinComma rest

/-- `' '.join(...)` over the captured parenthetical comments. -/
def joinSpaceCL : List (List Char) → List Char
  | [] => []
  | [a] => a
  | a :: rest => a ++ ' ' :: joinSpaceCL rest

/-- A rule entry, the value stored under a command key: either a plain
string, or a JSON object with optional `desc` (string) and `sub` (nested
mapping) fields. -/
inductive Entry where
  | str : String → Entry
  | obj : Option String → Option (List (String × Entry)) → Entry

/-- The annotation dictionary: a mapping from command key to rule entry,
in insertion order. -/
abbrev Store := List (String × Entry)

/-- First-occurrence lookup, the semantics of `dict.get` / `dict[k]` when
keys are unique. -/
def lookupStore : Store → String → Option Entry
  | [], _ => none
  | (k, e) :: rest, key => if k = key then some e else lookupStore rest key

/-- Python truthiness of a rule entry: a string is truthy iff non-empty, a
dict iff non-empty (the object shape has at least one of its two fields). -/
def entryTruthy : Entry → Bool
  | .str s => s ≠ ""
  | .obj d s => d.isSome || s.isSome

/-- `_unwrap` (src/main.py lines 812-820): a string entry yields
`(entry, None)`; a dict entry yields `(entry.get("desc"), entry.get("sub", {}))`. -/
def unwrap : Entry → Option String × Option Store
  | .str s => (some s, none)
  | .obj d s => (d, some (s.getD []))

/-- Truthiness of the `sub_map` variable (`None` and `{}` are falsy). -/
def subTruthy : Option Store → Bool
  | none => false
  | some m => !m.isEmpty

/-- Python `repr` of a plain string (adequate for strings without quotes,
backslashes or control characters, which is all this development uses). -/
def pyReprS (s : String) : String := "\x27" ++ s ++ "\x27"

mutual

/-- Python `str()`/`repr()` of a rule entry, used when the engine
interpolates a dict value into an f-string.  Dict fields are shown in
insertion order; the model fixes the schema order `desc` before `sub`. -/
def pyReprEntry : Entry → String
  | .str s => pyReprS s
  | .obj d s =>
    "\x7b" ++
      joinComma ((match d with
        | some ds => [pyReprS "desc" ++ ": " ++ pyReprS ds]
        | none => []) ++
       (match s with
        | some m => [pyReprS "sub" ++ ": " ++ pyReprStore m]
        | none => [])) ++ "\x7d"

def pyReprStore : List (String × Entry) → String
  | [] => "\x7b\x7d"
  | l => "\x7b" ++ joinComma (pyReprFields l) ++ "\x7d"

def pyReprFields : List (String × Entry) → List String
  | [] => []
  | (k, e) :: rest => (pyReprS k ++ ": " ++ pyReprEntry e) :: pyReprFields rest

end

/-- The possible values of the Python local variable `desc` inside the
token loop: `None`, a string (from `_unwrap` or a string-valued sub-rule),
or a dict (a dict-valued sub-rule taken from the scope without unwrapping). -/
inductive PyVal where
  | pynone
  | pystr : String → PyVal
  | pydict : Entry → PyVal

/-- Python truthiness of `desc`. -/
def pyTruthy : PyVal → Bool
  | .pynone => false
  | .pystr s => s ≠ ""
  | .pydict e => entryTruthy e

/-- Python `str()` of `desc`, as interpolated into the annotation f-string. -/
def pyStr : PyVal → String
  | .pynone => "None"
  | .pystr s => s
  | .pydict e => pyReprEntry e

/-- The `desc` value produced by reading a raw sub-rule out of the scope
(`desc = sub_map[cmd]`, with no unwrapping). -/
def pyOfEntry : Entry → PyVal
  | .str s => .pystr s
  | .obj d s => .pydict (.obj d s)

/-- The `desc` value produced by `_unwrap` (first component). -/
def pyOfDesc : Option String → PyVal
  | none => .pynone
  | some s => .pystr s

/-! ## Tokenizer

The token regex of `describe_line` (src/main.py lines 882-887):
`(?:,[A-Za-z]+[-+]?(?:\d*\.\d+|\d+))|(?:[A-Za-z]+[-+]?(?:\d*\.\d+|\d+))|(?:\#[0-9]+)`
scanned left to right by `re.findall`, advancing one character on failure.
Each matcher returns the length of the match at the head of the input; the
matched token is then the corresponding `take` prefix. -/

def digitsLen (l : List Char) : Nat := (l.takeWhile isDigitC).length

def alphaLen (l : List Char) : Nat := (l.takeWhile isAlphaC).length

/-- Match `\d*\.\d+|\d+` at the head of the input (first alternative
preferred, both greedy), returning the length of the match. -/
def numCoreLen (l : List Char) : Option Nat :=
  let d := digitsLen l
  let r1 := l.drop d
  if r1.head? = some '.' then
    let d2 := digitsLen r1.tail
    if d2 = 0 then (if d = 0 then none else some d)
    else some (d + 1 + d2)
  else if d = 0 then none else some d

/-- Match `[-+]?(?:\d*\.\d+|\d+)` at the head of the input. -/
def matchNumLen (l : List Char) : Option Nat :=
  if l.head? = some '-' || l.head? = some '+' then
    (numCoreLen l.tail).map (fun n => n + 1)
  else numCoreLen l

/-- Try the three token alternatives, in the regex order, at one position;
return the length of the match, if any. -/
def matchTokenAtLen (l : List Char) : Option Nat :=
  if l.head? = some ',' then
    let a := alphaLen l.tail
    if a = 0 then none
    else (matchNumLen (l.tail.drop a)).map (fun n => 1 + a + n)
  else if l.head? = some '#' then
    let d := digitsLen l.tail
    if d = 0 then none else some (1 + d)
  else
    let a := alphaLen l
    if a = 0 then none
    else (matchNumLen (l.drop a)).map (fun n => a + n)

/-- `re.findall` with the token regex: scan left to right, taking each
match greedily and advancing one character when no alternative matches.
The fuel argument only serves structural termination: every step consumes
at least one character (`matchTokenAtLen_pos`), so fuel equal to the input
length is never exhausted. -/
def findTokensF : Nat → List Char → List (List Char)
  | 0, _ => []
  | _, [] => []
  | fuel + 1, c :: rest =>
    match matchTokenAtLen (c :: rest) with
    | some n => (c :: rest).take n :: findTokensF fuel ((c :: rest).drop n)
    | none => findTokensF fuel rest

def findTokens (l : List Char) : List (List Char) := findTokensF l.length l

/-! ## Comment, checksum and code-part extraction (src/main.py lines 845-877) -/

/-- `code_part.split(';', 1)` guarded by `';' in code_part`: the text
before the first `;` and, if a `;` is present, the text after it. -/
def semSplit (l : List Char) : List Char × Option (List Char) :=
  match l.dropWhile (fun c => c ≠ ';') with
  | [] => (l, none)
  | _ :: after => (l.takeWhile (fun c => c ≠ ';'), some after)

/-- Scan for the interior of one `\(.*?\)` match: everything up to the
first `)`, failing if none exists before a newline or the end. -/
def takeGroup : List Char → Option (List Char × List Char)
  | [] => none
  | c :: r =>
    if c = ')' then some ([], r)
    else if c = '\n' then none
    else (takeGroup r).map (fun p => (c :: p.1, p.2))

/-- The combined effect of `re.findall(r'\((.*?)\)', code_part)` and
`re.sub(r'\(.*?\)', '', code_part)`: the list of captured interiors, and
the text with the matched spans deleted. -/
def scanParensF : Nat → List Char → List (List Char) × List Char
  | 0, l => ([], l)
  | _, [] => ([], [])
  | fuel + 1, c :: rest =>
    if c = '(' then
      match takeGroup rest with
      | some (g, r2) =>
        let p := scanParensF fuel r2
        (g :: p.1, p.2)
      | none =>
        let p := scanParensF fuel rest
        (p.1, c :: p.2)
    else
      let p := scanParensF fuel rest
      (p.1, c :: p.2)

/-- Fuel equal to the input length is never exhausted: a matched group
consumes at least the group plus its closing parenthesis (`takeGroup_len`). -/
def scanParens (l : List Char) : List (List Char) × List Char :=
  scanParensF l.length l

/-- `re.search(r'\*(\d+)$', code_part)` and removal of the matched suffix:
if the text ends in `*` followed by one or more digits, return the text
without that suffix together with the digits. -/
def splitChecksum (l : List Char) : List Char × Option (List Char) :=
  let rds := l.reverse.takeWhile isDigitC
  if rds.isEmpty then (l, none)
  else
    match l.reverse.drop rds.length with
    | '*' :: rest => (rest.reverse, some rds.reverse)
    | _ => (l, none)

/-- The code part, checksum and inline comment extracted from the line
text, per steps 2 of `describe_line` (lines 845-873). -/
structure CodeParts where
  code : List Char
  chk : Option (List Char)
  com : Option String

/-- Comment and checksum extraction: semicolon comment first, then
parenthetical comments (joined with single spaces, appended to any
semicolon comment), then the trailing `*nn` checksum. -/
def codeOf (text : List Char) : CodeParts :=
  let s := semSplit text
  let com0 : Option String := s.2.map (fun a => String.mk (pstrip a))
  let p := scanParens s.1
  let com1 : Option String :=
    if p.1.isEmpty then com0
    else
      let pt := String.mk (pstrip (joinSpaceCL p.1))
      match com0 with
      | some c => if c ≠ "" then some (c ++ " " ++ pt) else some pt
      | none => some pt
  let q := splitChecksum p.2
  ⟨q.1, q.2, com1⟩

/-! ## Rule resolution (steps 3-9 of `describe_line`, lines 879-966) -/

/-- Full match of `comma_re = ^,([A-Za-z]+)([-+]?(?:\d+\.?\d*|\.\d+))$`
against the number part after the optional sign. -/
def commaBodyOK (body : List Char) : Bool :=
  if body.head? = some '.' then !body.tail.isEmpty && body.tail.all isDigitC
  else
    let ds := body.takeWhile isDigitC
    if ds.isEmpty then false
    else
      match body.dropWhile isDigitC with
      | [] => true
      | c :: r2 => c = '.' && r2.all isDigitC

/-- `comma_re.fullmatch(clean)`: on success, the letter group (group 1)
and the signed value group (group 2). -/
def commaMatch (clean : List Char) : Option (List Char × List Char) :=
  if clean.head? = some ',' then
    let r := clean.tail
    let ls := r.takeWhile isAlphaC
    if ls.isEmpty then none
    else
      match r.dropWhile isAlphaC with
      | [] => none
      | c :: r3 =>
        if c = '-' || c = '+' then
          if commaBodyOK r3 then some (ls, c :: r3) else none
        else if commaBodyOK (c :: r3) then some (ls, c :: r3) else none
  else none

/-- Full match of the number part of
`num_re = ^([A-Za-z]+)([-+]?(?:[0-9]*\.[0-9]+|[0-9]+))$`. -/
def numBodyOK (body : List Char) : Bool :=
  match body.dropWhile isDigitC with
  | [] => !(body.takeWhile isDigitC).isEmpty
  | c :: r2 => c = '.' && !r2.isEmpty && r2.all isDigitC

/-- `num_re.fullmatch(clean)`: on success, the letter group (group 1) and
the signed value group (group 2). -/
def numMatch (clean : List Char) : Option (List Char × List Char) :=
  let ls := clean.takeWhile isAlphaC
  if ls.isEmpty then none
  else
    match clean.dropWhile isAlphaC with
    | [] => none
    | c :: r3 =>
      if c = '-' || c = '+' then
        if numBodyOK r3 then some (ls, c :: r3) else none
      else if numBodyOK (c :: r3) then some (ls, c :: r3) else none

/-- The scope test `i > 0 and sub_map and cmd in sub_map`, followed by
`sub_map[cmd]` on success. -/
def scopeHit (sub : Option Store) (i : Nat) (cmd : String) : Option Entry :=
  match sub with
  | some m => if 0 < i && !m.isEmpty then lookupStore m cmd else none
  | none => none

/-- The `clean` text of a token: `tok.strip().rstrip('.').upper()`. -/
def cleanTok (tok : List Char) : List Char :=
  upList (rstripDots (pstrip tok))

/-- One token's resolution outcome before the truthiness check: the `desc`
value, the optional numeric `value` string, and the `sub_map` to carry to
the next token.  `none` models the early `return "Unrecognized command"`
taken when `num_re` fails to match. -/
def resolveTok (d : Store) (sub : Option Store) (i : Nat) (clean : List Char) :
    Option (PyVal × Option String × Option Store) :=
  match commaMatch clean with
  | some (ls, val) =>
    let cmd := "," ++ String.mk (upList ls)
    (match scopeHit sub i cmd with
     | some e => some (pyOfEntry e, some (String.mk val), sub)
     | none =>
       match lookupStore d cmd with
       | some e => some (pyOfDesc (unwrap e).1, some (String.mk val), (unwrap e).2)
       | none => some (.pynone, some (String.mk val), sub))
  | none =>
    match lookupStore d (String.mk clean) with
    | some e => some (pyOfDesc (unwrap e).1, none, (unwrap e).2)
    | none =>
      match numMatch clean with
      | some (ls, val) =>
        let cmd := String.mk (upList ls)
        (match scopeHit sub i cmd with
         | some e => some (pyOfEntry e, some (String.mk val), sub)
         | none =>
           match lookupStore d cmd with
           | some e => some (pyOfDesc (unwrap e).1, some (String.mk val), (unwrap e).2)
           | none => some (.pynone, some (String.mk val), sub))
      | none => none

/-- The per-token loop (step 4 of `describe_line`): macro variables render
directly and leave the scope untouched; other tokens resolve through
`resolveTok`, fail the whole line when `desc` is falsy, and otherwise
append `"{desc} = {value}"` (or just `desc`).  `none` models the early
`return "Unrecognized command"`. -/
def processTokens (d : Store) (sub : Option Store) (i : Nat) :
    List (List Char) → Option (List String)
  | [] => some []
  | tok :: rest =>
    if (cleanTok tok).head? = some '#' then
      (processTokens d sub (i + 1) rest).map
        (fun rs => ("Macro variable " ++ String.mk (cleanTok tok) ++ " = " ++
          String.mk (cleanTok tok).tail) :: rs)
    else
      match resolveTok d sub i (cleanTok tok) with
      | none => none
      | some (desc, val, subNext) =>
        if pyTruthy desc then
          (processTokens d subNext (i + 1) rest).map
            (fun rs =>
              (match val with
               | some v => pyStr desc ++ " = " ++ v
               | none => pyStr desc) :: rs)
        else none

/-- `raw_nospace = re.sub(r'\s+', '', raw_code)`. -/
def nospace (l : List Char) : List Char := l.filter (fun c => !isSpaceC c)

/-- The full annotation list: the loop results, then the checksum
annotation, then the comment annotation. -/
def annsOf (rs : List String) (cp : CodeParts) : List String :=
  rs
    ++ (match cp.chk with
        | some cs => ["Checksum = " ++ String.mk cs]
        | none => [])
    ++ (match cp.com with
        | some c => if c ≠ "" then ["Comment - " ++ c] else []
        | none => [])

/-- Steps 3-9 of `describe_line`: tokenize the code part, check coverage,
run the token loop, then append checksum and comment annotations. -/
def describeTokens (d : Store) (cp : CodeParts) : Option String :=
  if (pstrip cp.code).isEmpty then
    match cp.com with
    | some c => if c ≠ "" then some ("Comment - " ++ c) else some ""
    | none => some ""
  else
    if (findTokens (upList (pstrip cp.code))).flatten =
        nospace (upList (pstrip cp.code)) then
      match processTokens d none 0 (findTokens (upList (pstrip cp.code))) with
      | none => some "Unrecognized command"
      | some rs =>
        if joinComma (annsOf rs cp) = "" then some "Unrecognized command"
        else some (joinComma (annsOf rs cp))
    else some "Unrecognized command"

/-- `describe_line` (src/main.py lines 823-966).  `some s` models a Python
return of string `s`; `none` models a return of Python `None` (possible
only on the `%` marker line). -/
def describe_line (d : Store) (line : String) : Option String :=
  let text := rstripNl line.data
  let st := pstrip text
  if st.isEmpty then some ""
  else if st.head? = some '(' ∧ st.getLast? = some ')' then
    some ("Comment - " ++ String.mk (st.tail.dropLast))
  else if st.head? = some ';' then
    some ("Comment - " ++ String.mk (pstrip st.tail))
  else
    match (if st = ['%'] then
        (match lookupStore d "%" with
         | some e => if entryTruthy e then some ((unwrap e).1) else none
         | none => none)
      else none : Option (Option String)) with
    | some res => res
    | none =>
      if st = ['/'] then some "Block skip"
      else describeTokens d (codeOf text)

/-- The per-line mapping performed by `on_editor_text_changed`
(src/main.py lines 968-978): each editor line is described independently,
blank lines short-circuiting to the empty annotation. -/
def describeDoc (d : Store) (doc : List String) : List (Option String) :=
  doc.map (fun line => if line = "" then some "" else describe_line d line)

/-! ## Reverse annotation map (src/main.py lines 799-805) -/

/-- Python `dict` assignment `m[k] = v`: replace in place if the key is
present, otherwise append. -/
def dictSet (m : List (String × String)) (k v : String) :
    List (String × String) :=
  if m.any (fun p => p.1 = k) then
    m.map (fun p => if p.1 = k then (k, v) else p)
  else m ++ [(k, v)]

/-- Lookup in the reverse map. -/
def revLookup (m : List (String × String)) (k : String) : Option String :=
  match m with
  | [] => none
  | p :: rest => if p.1 = k then some p.2 else revLookup rest k

/-- One iteration of the reverse-map construction: record
`desc_text -> cmd` when the unwrapped description is truthy. -/
def revStep (m : List (String × String)) (p : String × Entry) :
    List (String × String) :=
  match (unwrap p.2).1 with
  | some dsc => if dsc ≠ "" then dictSet m dsc p.1 else m
  | none => m

/-- The reverse annotation map built in `set_profile`: iterate the
top-level entries in order, record `desc -> cmd` for every truthy
unwrapped description. -/
def buildReverseMap (store : Store) : List (String × String) :=
  store.foldl revStep []

/-- Modelled from the amended claim (C2): the key of the *last* top-level
entry whose truthy unwrapped description equals `dsc`. -/
def lastTopDesc : Store → String → Option String
  | [], _ => none
  | (k, e) :: rest, dsc =>
    match lastTopDesc rest dsc with
    | some k2 => some k2
    | none =>
      match (unwrap e).1 with
      | some t => if t = dsc ∧ dsc ≠ "" then some k else none
      | none => none

/-! ## Bridging lemmas -/

/-- Whether the `%` marker line would return from the annotation-dict
branch (entry present and truthy). -/
def pctHit (d : Store) : Bool :=
  match lookupStore d "%" with
  | some e => entryTruthy e
  | none => false

/-- The line reaches steps 2-9 of `describe_line`: it is not blank, not a
comment line, and not a handled `%` or `/` marker. -/
def reachesTokenizer (d : Store) (line : String) : Bool :=
  let st := pstrip (rstripNl line.data)
  !st.isEmpty &&
  !(decide (st.head? = some '(') && decide (st.getLast? = some ')')) &&
  !(decide (st.head? = some ';')) &&
  !(decide (st = ['%']) && pctHit d) &&
  !(decide (st = ['/']))

/-- The line reaches tokenization proper (steps 3-9): additionally its
code part is non-empty after comment and checksum stripping. -/
def inTokenPhase (d : Store) (line : String) : Bool :=
  reachesTokenizer d line &&
    !(pstrip (codeOf (rstripNl line.data)).code).isEmpty

/-! ## Claim-C1 comparison definitions -/

/-- Modelled from the claim (C1 / spec section 4.2): a resolver in which
*every* successful lookup — in the active scope as well as in the
top-level store — unwraps the entry, renders its description, and installs
its `sub_rules` as the new scope (clearing the scope for `Plain` entries). -/
def resolveTokClaimC1 (d : Store) (sub : Option Store) (i : Nat)
    (clean : List Char) : Option (PyVal × Option String × Option Store) :=
  match commaMatch clean with
  | some (ls, val) =>
    (match scopeHit sub i ("," ++ String.mk (upList ls)) with
     | some e => some (pyOfDesc (unwrap e).1, some (String.mk val), (unwrap e).2)
     | none =>
       match lookupStore d ("," ++ String.mk (upList ls)) with
       | some e => some (pyOfDesc (unwrap e).1, some (String.mk val), (unwrap e).2)
       | none => some (.pynone, some (String.mk val), sub))
  | none =>
    match lookupStore d (String.mk clean) with
    | some e => some (pyOfDesc (unwrap e).1, none, (unwrap e).2)
    | none =>
      match numMatch clean with
      | some (ls, val) =>
        (match scopeHit sub i (String.mk (upList ls)) with
         | some e => some (pyOfDesc (unwrap e).1, some (String.mk val), (unwrap e).2)
         | none =>
           match lookupStore d (String.mk (upList ls)) with
           | some e => some (pyOfDesc (unwrap e).1, some (String.mk val), (unwrap e).2)
           | none => some (.pynone, some (String.mk val), sub))
      | none => none

/-- The token loop as the claim describes it, built on `resolveTokClaimC1`. -/
def processTokensClaimC1 (d : Store) (sub : Option Store) (i : Nat) :
    List (List Char) → Option (List String)
  | [] => some []
  | tok :: rest =>
    if (cleanTok tok).head? = some '#' then
      (processTokensClaimC1 d sub (i + 1) rest).map
        (fun rs => ("Macro variable " ++ String.mk (cleanTok tok) ++ " = " ++
          String.mk (cleanTok tok).tail) :: rs)
    else
      match resolveTokClaimC1 d sub i (cleanTok tok) with
      | none => none
      | some (desc, val, subNext) =>
        if pyTruthy desc then
          (processTokensClaimC1 d subNext (i + 1) rest).map
            (fun rs =>
              (match val with
               | some v => pyStr desc ++ " = " ++ v
               | none => pyStr desc) :: rs)
        else none

/-- `describe` as the claim describes it: identical pipeline, with the
claim's scope-update rule in the token loop. -/
def describeTokensClaimC1 (d : Store) (cp : CodeParts) : Option String :=
  if (pstrip cp.code).isEmpty then
    match cp.com with
    | some c => if c ≠ "" then some ("Comment - " ++ c) else some ""
    | none => some ""
  else
    if (findTokens (upList (pstrip cp.code))).flatten =
        nospace (upList (pstrip cp.code)) then
      match processTokensClaimC1 d none 0 (findTokens (upList (pstrip cp.code))) with
      | none => some "Unrecognized command"
      | some rs =>
        if joinComma (annsOf rs cp) = "" then some "Unrecognized command"
        else some (joinComma (annsOf rs cp))
    else some "Unrecognized command"

def describe_lineClaimC1 (d : Store) (line : String) : Option String :=
  let text := rstripNl line.data
  let st := pstrip text
  if st.isEmpty then some ""
  else if st.head? = some '(' ∧ st.getLast? = some ')' then
    some ("Comment - " ++ String.mk (st.tail.dropLast))
  else if st.head? = some ';' then
    some ("Comment - " ++ String.mk (pstrip st.tail))
  else
    match (if st = ['%'] then
        (match lookupStore d "%" with
         | some e => if entryTruthy e then some ((unwrap e).1) else none
         | none => none)
      else none : Option (Option String)) with
    | some res => res
    | none =>
      if st = ['/'] then some "Block skip"
      else describeTokensClaimC1 d (codeOf text)

/-- Where a token's rule entry was found. -/
inductive LookupSource where
  | fromScope : Entry → LookupSource
  | fromTop : Entry → LookupSource
  | missing : LookupSource

/-- The amended lookup order: the active scope first (when applicable),
then the top-level store. -/
def amendedLookup (d : Store) (sub : Option Store) (i : Nat) (cmd : String) :
    LookupSource :=
  match scopeHit sub i cmd with
  | some e => .fromScope e
  | none =>
    match lookupStore d cmd with
    | some e => .fromTop e
    | none => .missing

/-- The amended scope-update rule (C1 as corrected): a scope hit uses the
stored value as-is and leaves the scope unchanged; a top-level hit unwraps
the entry and replaces the scope with its `sub_rules` (`Plain` entries
clear it); a miss leaves `desc` as `None` and the scope unchanged. -/
def amendedOutcome (sub : Option Store) (src : LookupSource)
    (val : Option String) : PyVal × Option String × Option Store :=
  match src with
  | .fromScope e => (pyOfEntry e, val, sub)
  | .fromTop e => (pyOfDesc (unwrap e).1, val, (unwrap e).2)
  | .missing => (.pynone, val, sub)

/-- The per-token resolver written from the amended claim. -/
def resolveTokAmendedC1 (d : Store) (sub : Option Store) (i : Nat)
    (clean : List Char) : Option (PyVal × Option String × Option Store) :=
  match commaMatch clean with
  | some (ls, val) =>
    some (amendedOutcome sub
      (amendedLookup d sub i ("," ++ String.mk (upList ls)))
      (some (String.mk val)))
  | none =>
    match lookupStore d (String.mk clean) with
    | some e => some (pyOfDesc (unwrap e).1, none, (unwrap e).2)
    | none =>
      match numMatch clean with
      | some (ls, val) =>
        some (amendedOutcome sub
          (amendedLookup d sub i (String.mk (upList ls)))
          (some (String.mk val)))
      | none => none

/-- The token loop built on the amended resolver. -/
def processTokensAmendedC1 (d : Store) (sub : Option Store) (i : Nat) :
    List (List Char) → Option (List String)
  | [] => some []
  | tok :: rest =>
    if (cleanTok tok).head? = some '#' then
      (processTokensAmendedC1 d sub (i + 1) rest).map
        (fun rs => ("Macro variable " ++ String.mk (cleanTok tok) ++ " = " ++
          String.mk (cleanTok tok).tail) :: rs)
    else
      match resolveTokAmendedC1 d sub i (cleanTok tok) with
      | none => none
      | some (desc, val, subNext) =>
        if pyTruthy desc then
          (processTokensAmendedC1 d subNext (i + 1) rest).map
            (fun rs =>
              (match val with
               | some v => pyStr desc ++ " = " ++ v
               | none => pyStr desc) :: rs)
        else none

/-! ## Theorems -/

theorem toNat_upChar_lower {c : Char} (h : 97 ≤ c.toNat ∧ c.toNat ≤ 122) :
    (upChar c).toNat = c.toNat - 32 := by
  have hv : (c.toNat - 32).isValidChar := by
    left
    omega
  unfold upChar
  rw [if_pos h, Char.ofNat, dif_pos hv]
  rfl

theorem isSpaceC_upChar (c : Char) : isSpaceC (upChar c) = isSpaceC c := by
  by_cases h : 97 ≤ c.toNat ∧ c.toNat ≤ 122
  · have ht := toNat_upChar_lower h
    unfold isSpaceC
    rw [ht]
    have e1 : ∀ b1 b2 : Bool, b1 = false → b2 = false → b1 = b2 := by
      intro b1 b2 hb1 hb2
      rw [hb1, hb2]
    apply e1 <;>
      simp only [Bool.or_eq_false_iff, decide_eq_false_iff_not] <;> omega
  · unfold upChar
    rw [if_neg h]

theorem upChar_idem (c : Char) : upChar (upChar c) = upChar c := by
  by_cases h : 97 ≤ c.toNat ∧ c.toNat ≤ 122
  · have ht := toNat_upChar_lower h
    unfold upChar
    rw [if_pos h, if_neg]
    rw [show Char.ofNat (c.toNat - 32) = upChar c from by unfold upChar; rw [if_pos h]]
    rw [ht]
    omega
  · unfold upChar
    rw [if_neg h, if_neg h]

theorem matchTokenAtLen_pos {l : List Char} {n : Nat}
    (h : matchTokenAtLen l = some n) : 0 < n := by
  unfold matchTokenAtLen at h
  split_ifs at h
  all_goals simp at h
  all_goals omega

theorem takeGroup_len {l g r : List Char} (h : takeGroup l = some (g, r)) :
    g.length + 1 + r.length = l.length := by
  induction l generalizing g r with
  | nil => simp [takeGroup] at h
  | cons c rest ih =>
    unfold takeGroup at h
    split_ifs at h with h1 h2
    · simp only [Option.some.injEq, Prod.mk.injEq] at h
      obtain ⟨h3, h4⟩ := h
      subst h3; subst h4
      simp only [List.length_nil, List.length_cons]
      omega
    · simp only [Option.map_eq_some'] at h
      obtain ⟨⟨g0, r0⟩, hg, he⟩ := h
      simp only [Prod.mk.injEq] at he
      obtain ⟨h3, h4⟩ := he
      subst h3; subst h4
      have := ih hg
      simp only [List.length_cons]
      omega

theorem describe_line_token {d : Store} {line : String}
    (h : reachesTokenizer d line = true) :
    describe_line d line = describeTokens d (codeOf (rstripNl line.data)) := by
  unfold reachesTokenizer at h
  simp only [Bool.and_eq_true, Bool.not_eq_true', Bool.and_eq_false_iff,
    decide_eq_false_iff_not, Bool.not_eq_true] at h
  obtain ⟨⟨⟨⟨h1, h2⟩, h3⟩, h4⟩, h5⟩ := h
  unfold describe_line
  rw [if_neg (by simp [h1])]
  rw [if_neg (by
    intro hc
    rcases h2 with h2a | h2b
    · exact h2a hc.1
    · exact h2b hc.2)]
  rw [if_neg h3]
  have hpm : (if pstrip (rstripNl line.data) = ['%'] then
      (match lookupStore d "%" with
       | some e => if entryTruthy e then some ((unwrap e).1) else none
       | none => none)
    else none : Option (Option String)) = none := by
    rcases h4 with h4a | h4b
    · rw [if_neg h4a]
    · split
      · unfold pctHit at h4b
        split at h4b <;> simp_all
      · rfl
  rw [hpm]
  simp only
  rw [if_neg h5]

theorem upList_idem (l : List Char) : upList (upList l) = upList l := by
  unfold upList
  rw [List.map_map]
  congr 1
  funext c
  exact upChar_idem c

theorem pstrip_upList (l : List Char) : pstrip (upList l) = upList (pstrip l) := by
  have hp : (isSpaceC ∘ upChar) = isSpaceC := by
    funext c
    exact isSpaceC_upChar c
  unfold pstrip upList
  rw [List.dropWhile_map upChar isSpaceC l, hp, ← List.map_reverse,
    List.dropWhile_map upChar isSpaceC, hp, ← List.map_reverse]

theorem nospace_upList (l : List Char) : nospace (upList l) = upList (nospace l) := by
  have hp : ((fun c => !isSpaceC c) ∘ upChar) = (fun c => !isSpaceC c) := by
    funext c
    simp [isSpaceC_upChar c]
  unfold nospace upList
  rw [List.map_filter upChar l, hp]

theorem nospace_dropWhile (l : List Char) :
    nospace (l.dropWhile isSpaceC) = nospace l := by
  induction l with
  | nil => rfl
  | cons c rest ih =>
    by_cases h : isSpaceC c
    · rw [List.dropWhile_cons_of_pos h]
      unfold nospace at *
      rw [ih]
      simp [List.filter_cons, h]
    · rw [List.dropWhile_cons_of_neg h]

theorem nospace_reverse (l : List Char) : nospace l.reverse = (nospace l).reverse :=
  List.filter_reverse _ l

theorem nospace_pstrip (l : List Char) : nospace (pstrip l) = nospace l := by
  unfold pstrip
  rw [nospace_reverse, nospace_dropWhile, nospace_reverse, List.reverse_reverse,
    nospace_dropWhile]

theorem nospace_ne_nil {l : List Char} (h : pstrip l ≠ []) : nospace l ≠ [] := by
  intro hc
  apply h
  have hall : ∀ a ∈ l, isSpaceC a := by
    intro a ha
    have := List.filter_eq_nil_iff.mp hc a ha
    simpa using this
  unfold pstrip
  rw [List.dropWhile_eq_nil_iff.mpr hall]
  rfl

theorem string_append_ne_empty (a b : String) (h : a ≠ "") : a ++ b ≠ "" := by
  intro hc
  have hd : a.data ++ b.data = ([] : List Char) := congrArg String.data hc
  have ha : a.data = [] := (List.append_eq_nil.mp hd).1
  exact h (String.ext ha)

theorem pyReprEntry_ne_empty (e : Entry) : pyReprEntry e ≠ "" := by
  cases e with
  | str s =>
    rw [show pyReprEntry (Entry.str s) = pyReprS s from by unfold pyReprEntry; rfl]
    unfold pyReprS
    rw [String.append_assoc]
    apply string_append_ne_empty
    decide
  | obj d s =>
    unfold pyReprEntry
    rw [String.append_assoc]
    apply string_append_ne_empty
    decide

theorem pyStr_ne_empty {v : PyVal} (h : pyTruthy v = true) : pyStr v ≠ "" := by
  cases v with
  | pynone => simp [pyTruthy] at h
  | pystr s => simpa [pyTruthy] using h
  | pydict e => exact pyReprEntry_ne_empty e

theorem joinComma_cons_ne {a : String} (r : List String) (h : a ≠ "") :
    joinComma (a :: r) ≠ "" := by
  cases r with
  | nil => exact h
  | cons b rest =>
    show a ++ ", " ++ joinComma (b :: rest) ≠ ""
    rw [String.append_assoc]
    exact string_append_ne_empty _ _ h

/-- A successful loop step on a non-empty token list always produces a
non-empty first annotation. -/
theorem processTokens_cons_shape {d : Store} {sub : Option Store} {i : Nat}
    {t : List Char} {ts : List (List Char)} {rs : List String}
    (h : processTokens d sub i (t :: ts) = some rs) :
    ∃ a rs2, rs = a :: rs2 ∧ a ≠ "" := by
  unfold processTokens at h
  split_ifs at h with hmac
  · simp only [Option.map_eq_some'] at h
    obtain ⟨rs0, _, hrs⟩ := h
    refine ⟨_, rs0, hrs.symm, ?_⟩
    exact string_append_ne_empty _ _
      (string_append_ne_empty _ _ (string_append_ne_empty _ _ (by decide)))
  · revert h
    cases hr : resolveTok d sub i (cleanTok t) with
    | none => intro h; simp at h
    | some p =>
      obtain ⟨desc, val, subNext⟩ := p
      simp only
      split_ifs with htr
      · intro h
        simp only [Option.map_eq_some'] at h
        obtain ⟨rs0, _, hrs⟩ := h
        refine ⟨_, rs0, hrs.symm, ?_⟩
        cases val with
        | some v =>
          simp only
          rw [String.append_assoc]
          exact string_append_ne_empty _ _ (pyStr_ne_empty htr)
        | none => exact pyStr_ne_empty htr
      · intro h
        simp at h

theorem joinComma_cons_exists (a : String) (r : List String) :
    ∃ t, joinComma (a :: r) = a ++ t := by
  cases r with
  | nil => exact ⟨"", (String.append_empty a).symm⟩
  | cons b rest =>
    refine ⟨", " ++ joinComma (b :: rest), ?_⟩
    show a ++ ", " ++ joinComma (b :: rest) = a ++ (", " ++ joinComma (b :: rest))
    rw [String.append_assoc]

/-- With an empty store, a non-macro token resolves to a falsy `None`
description (or fails the number regex). -/
theorem resolveTok_empty (i : Nat) (clean : List Char) :
    resolveTok [] none i clean = none ∨
      ∃ v s, resolveTok [] none i clean = some (.pynone, v, s) := by
  unfold resolveTok
  cases hc : commaMatch clean with
  | some p =>
    obtain ⟨ls, val⟩ := p
    right
    exact ⟨_, _, rfl⟩
  | none =>
    cases hn : numMatch clean with
    | some p =>
      obtain ⟨ls, val⟩ := p
      right
      exact ⟨_, _, rfl⟩
    | none =>
      left
      rfl

/-- With an empty store, a successful loop step is necessarily a
macro-variable step. -/
theorem processTokens_empty_cons {i : Nat} {t : List Char}
    {ts : List (List Char)} {rs : List String}
    (h : processTokens [] none i (t :: ts) = some rs) :
    ∃ rs2, rs = ("Macro variable " ++ String.mk (cleanTok t) ++ " = " ++
      String.mk (cleanTok t).tail) :: rs2 := by
  unfold processTokens at h
  split_ifs at h with hmac
  · simp only [Option.map_eq_some'] at h
    obtain ⟨rs0, _, hrs⟩ := h
    exact ⟨rs0, hrs.symm⟩
  · rcases resolveTok_empty i (cleanTok t) with hre | ⟨v, s2, hre⟩
    · rw [hre] at h
      simp at h
    · rw [hre] at h
      simp [pyTruthy] at h

/-- With an empty store, the token phase yields `"Unrecognized command"`,
the empty string, a comment annotation, or a macro-variable annotation. -/
theorem describeTokens_empty (cp : CodeParts) :
    describeTokens [] cp = some "Unrecognized command" ∨
      describeTokens [] cp = some "" ∨
      (∃ t, describeTokens [] cp = some ("Comment - " ++ t)) ∨
      (∃ t, describeTokens [] cp = some ("Macro variable " ++ t)) := by
  unfold describeTokens
  by_cases h1 : (pstrip cp.code).isEmpty
  · rw [if_pos h1]
    cases hc : cp.com with
    | none =>
      right; left; rfl
    | some c =>
      dsimp only
      by_cases hce : c ≠ ""
      · rw [if_pos hce]
        exact Or.inr (Or.inr (Or.inl ⟨c, rfl⟩))
      · rw [if_neg hce]
        right; left; rfl
  · rw [if_neg h1]
    by_cases hcov : (findTokens (upList (pstrip cp.code))).flatten =
        nospace (upList (pstrip cp.code))
    · rw [if_pos hcov]
      cases htk : findTokens (upList (pstrip cp.code)) with
      | nil =>
        exfalso
        rw [htk] at hcov
        have hnn : nospace cp.code ≠ [] :=
          nospace_ne_nil (by simpa using h1)
        rw [nospace_upList, nospace_pstrip] at hcov
        apply hnn
        have : upList (nospace cp.code) = [] := hcov.symm
        simpa [upList] using this
      | cons t ts =>
        cases hp : processTokens [] none 0 (t :: ts) with
        | none => left; rfl
        | some rs =>
          obtain ⟨rs2, hrs⟩ := processTokens_empty_cons hp
          subst hrs
          dsimp only
          by_cases hres : joinComma (annsOf
            (("Macro variable " ++ String.mk (cleanTok t) ++ " = " ++
              String.mk (cleanTok t).tail) :: rs2) cp) = ""
          · rw [if_pos hres]
            left; rfl
          · rw [if_neg hres]
            right; right; right
            unfold annsOf
            simp only [List.cons_append]
            obtain ⟨tl, htl⟩ := joinComma_cons_exists
              ("Macro variable " ++ String.mk (cleanTok t) ++ " = " ++
                String.mk (cleanTok t).tail)
              (rs2 ++ _ ++ _)
            refine ⟨String.mk (cleanTok t) ++ (" = " ++
              (String.mk (cleanTok t).tail ++ tl)), ?_⟩
            rw [htl]
            simp [String.append_assoc]
    · rw [if_neg hcov]
      left; rfl

theorem revLookup_mapReplace_ne {k key : String} (hne : key ≠ k)
    (m : List (String × String)) (v : String) :
    revLookup (m.map (fun p => if p.1 = k then (k, v) else p)) key =
      revLookup m key := by
  induction m with
  | nil => rfl
  | cons p rest ih =>
    simp only [List.map_cons]
    by_cases hp : p.1 = k
    · rw [if_pos hp]
      unfold revLookup
      rw [if_neg (by simpa using fun hc => hne hc.symm),
        if_neg (by rw [hp]; exact fun hc => hne hc.symm)]
      exact ih
    · rw [if_neg hp]
      unfold revLookup
      split_ifs with hq
      · rfl
      · exact ih

theorem revLookup_mapReplace_mem {k : String} (m : List (String × String))
    (v : String) (hmem : m.any (fun p => p.1 = k) = true) :
    revLookup (m.map (fun p => if p.1 = k then (k, v) else p)) k = some v := by
  induction m with
  | nil => simp at hmem
  | cons p rest ih =>
    simp only [List.map_cons]
    by_cases hp : p.1 = k
    · rw [if_pos hp]
      unfold revLookup
      rw [if_pos rfl]
    · rw [if_neg hp]
      unfold revLookup
      rw [if_neg hp]
      apply ih
      simp only [List.any_cons, Bool.or_eq_true, decide_eq_true_eq] at hmem
      rcases hmem with h | h
      · exact absurd h hp
      · exact h

theorem revLookup_append_ne {k key : String} (hne : key ≠ k)
    (m : List (String × String)) (v : String) :
    revLookup (m ++ [(k, v)]) key = revLookup m key := by
  induction m with
  | nil =>
    simp only [List.nil_append]
    unfold revLookup
    rw [if_neg (fun hc => hne hc.symm)]
    rfl
  | cons p rest ih =>
    simp only [List.cons_append]
    unfold revLookup
    split_ifs with hq
    · rfl
    · exact ih

theorem revLookup_append_self (k v : String) (m : List (String × String))
    (hmem : m.any (fun p => p.1 = k) = false) :
    revLookup (m ++ [(k, v)]) k = some v := by
  induction m with
  | nil =>
    simp only [List.nil_append]
    unfold revLookup
    rw [if_pos rfl]
  | cons p rest ih =>
    simp only [List.any_cons, Bool.or_eq_false_iff] at hmem
    simp only [List.cons_append]
    unfold revLookup
    rw [if_neg (by simpa using hmem.1)]
    exact ih hmem.2

/-- Python dict assignment: the updated map answers `k` with `v` and every
other key as before. -/
theorem revLookup_dictSet (m : List (String × String)) (k v key : String) :
    revLookup (dictSet m k v) key = if key = k then some v else revLookup m key := by
  unfold dictSet
  split_ifs with hany hk hk2
  · subst hk
    exact revLookup_mapReplace_mem m v hany
  · exact revLookup_mapReplace_ne hk m v
  · subst hk2
    exact revLookup_append_self _ v m (Bool.eq_false_iff.mpr hany)
  · exact revLookup_append_ne hk2 m v

/-- Folding the reverse-map construction over the store from any initial
map: the result answers `dsc` with the last matching top-level key, else
as the initial map did. -/
theorem revLookup_fold (store : Store) (dsc : String) :
    ∀ m, revLookup (store.foldl revStep m) dsc =
      (match lastTopDesc store dsc with
       | some k => some k
       | none => revLookup m dsc) := by
  induction store with
  | nil =>
    intro m
    rfl
  | cons p rest ih =>
    intro m
    obtain ⟨k, e⟩ := p
    rw [List.foldl_cons, ih]
    cases hl : lastTopDesc rest dsc with
    | some k2 => simp [lastTopDesc, hl]
    | none =>
      simp only [lastTopDesc, hl]
      cases hu : (unwrap e).1 with
      | none => simp [revStep, hu]
      | some t =>
        simp only [revStep, hu]
        by_cases ht : t ≠ ""
        · rw [if_pos ht, revLookup_dictSet]
          by_cases htd : t = dsc ∧ dsc ≠ ""
          · rw [if_pos htd, if_pos htd.1.symm]
          · rw [if_neg htd, if_neg]
            intro hdt
            refine htd ⟨hdt.symm, ?_⟩
            intro hd0
            exact ht (hdt.symm.trans hd0)
        · rw [if_neg ht]
          have ht2 : t = "" := by simpa using ht
          rw [if_neg]
          intro hc
          exact hc.2 (by rw [← hc.1, ht2])

theorem resolveTokAmendedC1_eq (d : Store) (sub : Option Store) (i : Nat)
    (clean : List Char) :
    resolveTokAmendedC1 d sub i clean = resolveTok d sub i clean := by
  cases hc : commaMatch clean with
  | some p =>
    obtain ⟨ls, val⟩ := p
    simp only [resolveTokAmendedC1, resolveTok, amendedLookup, amendedOutcome, hc]
    cases hs : scopeHit sub i ("," ++ String.mk (upList ls)) with
    | some e => simp
    | none =>
      cases hl : lookupStore d ("," ++ String.mk (upList ls)) with
      | some e => simp
      | none => simp
  | none =>
    simp only [resolveTokAmendedC1, resolveTok, amendedLookup, amendedOutcome, hc]
    cases hl : lookupStore d (String.mk clean) with
    | some e => simp
    | none =>
      cases hn : numMatch clean with
      | some p =>
        obtain ⟨ls, val⟩ := p
        simp only [hn]
        cases hs : scopeHit sub i (String.mk (upList ls)) with
        | some e => simp
        | none =>
          cases hl2 : lookupStore d (String.mk (upList ls)) with
          | some e => simp
          | none => simp
      | none => simp [hn]

/-! ## Claims -/

/-- C5, counterexample: with an empty Rule Store, a macro-variable line is
neither blank, nor a comment, nor a marker, yet it does not resolve to
`"Unrecognized command"` — macro variables render without consulting the
store. -/
theorem c5_counterexample :
    describe_line [] "#100" = some "Macro variable #100 = 100" ∧
      describe_line [] "#100" ≠ some "Unrecognized command" := by
  refine ⟨by decide, by decide⟩

/-- C5 (amended): with an empty Rule Store, `describe` is safe to call and
every line resolves to `"Unrecognized command"` except blank lines, comment
lines (including lines whose code part is empty after comment and checksum
stripping, which yield the comment text or the empty string), the `/`
marker (`"Block skip"`), and lines consisting solely of macro-variable
tokens (which render their macro annotations); the `%` marker finds no
entry and resolves to `"Unrecognized command"` like any other code line. -/
theorem c5_empty_store (line : String) :
    describe_line [] line = some "Unrecognized command" ∨
      describe_line [] line = some "" ∨
      describe_line [] line = some "Block skip" ∨
      (∃ t, describe_line [] line = some ("Comment - " ++ t)) ∨
      (∃ t, describe_line [] line = some ("Macro variable " ++ t)) := by
  by_cases hr : reachesTokenizer [] line = true
  · rw [describe_line_token hr]
    rcases describeTokens_empty (codeOf (rstripNl line.data)) with h | h | ⟨t, h⟩ | ⟨t, h⟩
    · exact Or.inl h
    · exact Or.inr (Or.inl h)
    · exact Or.inr (Or.inr (Or.inr (Or.inl ⟨t, h⟩)))
    · exact Or.inr (Or.inr (Or.inr (Or.inr ⟨t, h⟩)))
  · rw [Bool.not_eq_true] at hr
    unfold reachesTokenizer at hr
    simp only [Bool.and_eq_false_iff] at hr
    rcases hr with ((((hA | hB) | hC) | hD) | hE)
    · -- blank line
      right; left
      have hst : pstrip (rstripNl line.data) = [] := by
        simpa using hA
      unfold describe_line
      simp only [hst]
      rfl
    · -- parenthetical comment line
      simp only [Bool.not_eq_false', Bool.and_eq_true, decide_eq_true_eq] at hB
      obtain ⟨hB1, hB2⟩ := hB
      have hne : ¬(pstrip (rstripNl line.data)).isEmpty = true := by
        cases hst : pstrip (rstripNl line.data) with
        | nil => rw [hst] at hB1; simp at hB1
        | cons a r => simp
      right; right; right; left
      refine ⟨String.mk ((pstrip (rstripNl line.data)).tail.dropLast), ?_⟩
      unfold describe_line
      rw [if_neg hne, if_pos ⟨hB1, hB2⟩]
    · -- semicolon comment line
      simp only [Bool.not_eq_false', decide_eq_true_eq] at hC
      have hne : ¬(pstrip (rstripNl line.data)).isEmpty = true := by
        cases hst : pstrip (rstripNl line.data) with
        | nil => rw [hst] at hC; simp at hC
        | cons a r => simp
      have hnp : ¬((pstrip (rstripNl line.data)).head? = some '(' ∧
          (pstrip (rstripNl line.data)).getLast? = some ')') := by
        intro hcp
        rw [hC] at hcp
        simp at hcp
      right; right; right; left
      refine ⟨String.mk (pstrip (pstrip (rstripNl line.data)).tail), ?_⟩
      unfold describe_line
      rw [if_neg hne, if_neg hnp, if_pos hC]
    · -- "%" with a truthy entry: impossible with an empty store
      exfalso
      simp only [Bool.not_eq_false', Bool.and_eq_true] at hD
      have : pctHit [] = true := hD.2
      simp [pctHit, lookupStore] at this
    · -- "/" marker
      simp only [Bool.not_eq_false', decide_eq_true_eq] at hE
      right; right; left
      unfold describe_line
      simp only [hE]
      rfl

/-- C6, counterexample: the claim says both comment forms are rendered with
the interior trimmed of surrounding whitespace, but a parenthetical comment
keeps its interior verbatim: `( x )` renders as `"Comment -  x "` (two
spaces, trailing space), not `"Comment - x"`. -/
theorem c6_counterexample :
    describe_line [] "( x )" = some "Comment -  x " ∧
      describe_line [] "( x )" ≠ some "Comment - x" := by
  constructor
  · rfl
  · decide

/-- C6 (amended): a line whose stripped text is `(...)`-delimited renders
as `"Comment - "` followed by the interior verbatim (only the line's outer
whitespace is stripped); a line starting with `;` renders as `"Comment - "`
followed by the trimmed text after the `;`. -/
theorem c6_comment_rendering (d : Store) (line : String) :
    ((pstrip (rstripNl line.data)).head? = some '(' ∧
        (pstrip (rstripNl line.data)).getLast? = some ')' →
      describe_line d line =
        some ("Comment - " ++
          String.mk ((pstrip (rstripNl line.data)).tail.dropLast))) ∧
    ((pstrip (rstripNl line.data)).head? = some ';' →
      describe_line d line =
        some ("Comment - " ++
          String.mk (pstrip (pstrip (rstripNl line.data)).tail))) := by
  constructor
  · intro h
    have hne : (pstrip (rstripNl line.data)).isEmpty = false := by
      rcases h with ⟨h1, _⟩
      cases hst : pstrip (rstripNl line.data) with
      | nil => rw [hst] at h1; simp at h1
      | cons a r => simp
    unfold describe_line
    rw [if_neg (by simp [hne]), if_pos h]
  · intro h
    have hne : (pstrip (rstripNl line.data)).isEmpty = false := by
      cases hst : pstrip (rstripNl line.data) with
      | nil => rw [hst] at h; simp at h
      | cons a r => simp
    have hnp : ¬((pstrip (rstripNl line.data)).head? = some '(' ∧
        (pstrip (rstripNl line.data)).getLast? = some ')') := by
      intro hc
      rw [h] at hc
      simp at hc
    unfold describe_line
    rw [if_neg (by simp [hne]), if_neg hnp, if_pos h]

/-- Witness for C6 (amended) at concrete comment lines. -/
theorem c6_comment_rendering_witness :
    describe_line [] "( x )" = some "Comment -  x " ∧
      describe_line [] " ; hi  " = some "Comment - hi" := by
  constructor
  · have := (c6_comment_rendering [] "( x )").1 ⟨rfl, rfl⟩
    simpa using this
  · have := (c6_comment_rendering [] " ; hi  ").2 rfl
    simpa using this

/-- C10: a `%` line whose rule entry is object-shaped with no `desc` field
yields Python `None` (modelled `none`), and one whose `desc` is the empty
string yields `""` — neither yields `"Unrecognized command"`. -/
theorem c10_percent_marker (d : Store) (m : Store) (s : Option Store) :
    (lookupStore d "%" = some (Entry.obj none (some m)) →
      describe_line d "%" = none) ∧
    (lookupStore d "%" = some (Entry.obj (some "") s) →
      describe_line d "%" = some "") := by
  have hst : pstrip (rstripNl ("%".data)) = ['%'] := rfl
  constructor
  · intro h
    unfold describe_line
    simp [hst, h, entryTruthy, unwrap]
  · intro h
    unfold describe_line
    simp [hst, h, entryTruthy, unwrap]

/-- Witness for C10 at a concrete store. -/
theorem c10_percent_marker_witness :
    describe_line [("%", Entry.obj none (some [("X", Entry.str "x")]))] "%" =
        none ∧
      describe_line [("%", Entry.obj (some "") none)] "%" = some "" := by
  constructor
  · exact (c10_percent_marker [("%", Entry.obj none (some [("X", Entry.str "x")]))]
      [("X", Entry.str "x")] none).1 rfl
  · exact (c10_percent_marker [("%", Entry.obj (some "") none)] [] none).2 rfl

/-- C1, counterexample: the claim predicts that the `Plain` sub-rule
`R -> "Retract"`, once used for the second token, clears the scope, so the
third token `R2` would resolve at top level to `"TopR = 2"`; the code
instead leaves the scope untouched on a scope hit and renders
`"Retract = 2"` again. -/
theorem c1_counterexample :
    describe_line
        [("G81", Entry.obj (some "Drill") (some [("R", Entry.str "Retract")])),
         ("R", Entry.str "TopR")] "G81 R1 R2" =
      some "Drill, Retract = 1, Retract = 2" ∧
    describe_lineClaimC1
        [("G81", Entry.obj (some "Drill") (some [("R", Entry.str "Retract")])),
         ("R", Entry.str "TopR")] "G81 R1 R2" =
      some "Drill, Retract = 1, TopR = 2" ∧
    describe_line
        [("G81", Entry.obj (some "Drill") (some [("R", Entry.str "Retract")])),
         ("R", Entry.str "TopR")] "G81 R1 R2" ≠
      describe_lineClaimC1
        [("G81", Entry.obj (some "Drill") (some [("R", Entry.str "Retract")])),
         ("R", Entry.str "TopR")] "G81 R1 R2" := by
  refine ⟨by decide, by decide, by decide⟩

/-- C1 (amended): scope updates happen only on top-level hits — a token
resolved from the top-level store has its entry unwrapped, and a `Scoped`
entry's `sub_rules` replace the scope while a `Plain` entry clears it; a
token resolved from the active scope uses the stored sub-rule value as-is
(without unwrapping) and leaves the scope unchanged for the following
tokens.  The code loop coincides with the loop written from this rule. -/
theorem c1_scope_update (d : Store) (toks : List (List Char)) :
    ∀ (sub : Option Store) (i : Nat),
      processTokensAmendedC1 d sub i toks = processTokens d sub i toks := by
  induction toks with
  | nil =>
    intro sub i
    rfl
  | cons t ts ih =>
    intro sub i
    unfold processTokensAmendedC1 processTokens
    rw [resolveTokAmendedC1_eq]
    split_ifs with hmac
    · rw [ih]
    · cases hr : resolveTok d sub i (cleanTok t) with
      | none => rfl
      | some p =>
        obtain ⟨desc, val, subNext⟩ := p
        dsimp only
        split_ifs with htr
        · rw [ih]
        · rfl

/-- C2, counterexample: the Reverse Index is built from top-level entries
only — the nested sub-rule `R -> "Retract"` carries a non-empty
description, yet the index built from the store contains no mapping for
`"Retract"` (it contains only the top-level `"Drill" -> "G81"`). -/
theorem c2_counterexample :
    buildReverseMap
        [("G81", Entry.obj (some "Drill") (some [("R", Entry.str "Retract")]))] =
      [("Drill", "G81")] ∧
    revLookup (buildReverseMap
        [("G81", Entry.obj (some "Drill") (some [("R", Entry.str "Retract")]))])
      "Retract" = none := by
  refine ⟨by decide, by decide⟩

/-- C2 (amended): the Reverse Index contains exactly the top-level
mappings — it answers a description text with the command key of the last
top-level entry whose non-empty unwrapped description equals it (later
entries overwrite earlier ones), and with nothing for descriptions found
only in nested `sub_rules`. -/
theorem c2_reverse_index (store : Store) (dsc : String) :
    revLookup (buildReverseMap store) dsc = lastTopDesc store dsc := by
  unfold buildReverseMap
  rw [revLookup_fold store dsc []]
  cases lastTopDesc store dsc with
  | some k => rfl
  | none => rfl

/-- C3: token coverage — for a line that reaches tokenization, either the
concatenation of the matched tokens equals the whitespace-stripped code
portion character for character, or the whole line renders as
`"Unrecognized command"` (so every non-rejected line satisfies the
coverage equation; the matched tokens never contain whitespace). -/
theorem c3_token_coverage (d : Store) (line : String)
    (h : inTokenPhase d line = true) :
    (findTokens (upList (pstrip (codeOf (rstripNl line.data)).code))).flatten =
        nospace (upList (pstrip (codeOf (rstripNl line.data)).code)) ∨
      describe_line d line = some "Unrecognized command" := by
  have hcode : (pstrip (codeOf (rstripNl line.data)).code).isEmpty = false := by
    unfold inTokenPhase at h
    simpa using ((Bool.and_eq_true _ _).mp h).2
  have hr : reachesTokenizer d line = true := by
    unfold inTokenPhase at h
    exact ((Bool.and_eq_true _ _).mp h).1
  by_cases hcov : (findTokens (upList (pstrip (codeOf (rstripNl line.data)).code))).flatten =
      nospace (upList (pstrip (codeOf (rstripNl line.data)).code))
  · exact Or.inl hcov
  · right
    rw [describe_line_token hr]
    unfold describeTokens
    rw [if_neg (by simp [hcode]), if_neg hcov]

/-- Witness for C3 at a concrete line and store. -/
theorem c3_token_coverage_witness :
    inTokenPhase [("G1", Entry.str "Linear move")] "G1" = true ∧
      ((findTokens (upList (pstrip (codeOf (rstripNl ("G1".data))).code))).flatten =
          nospace (upList (pstrip (codeOf (rstripNl ("G1".data))).code)) ∨
        describe_line [("G1", Entry.str "Linear move")] "G1" =
          some "Unrecognized command") :=
  ⟨by decide, c3_token_coverage [("G1", Entry.str "Linear move")] "G1" (by decide)⟩

/-- C4, counterexample: the claim says a matched rule with a missing
description always produces exactly `"Unrecognized command"`, but the `%`
marker line returns the unwrapped description directly: with `%` mapped to
an object entry with no `desc` field, `describe` returns Python `None`
(modelled `none`), not `"Unrecognized command"`. -/
theorem c4_counterexample :
    describe_line [("%", Entry.obj none (some [("X", Entry.str "x")]))] "%" =
        none ∧
      describe_line [("%", Entry.obj none (some [("X", Entry.str "x")]))] "%" ≠
        some "Unrecognized command" := by
  constructor
  · rfl
  · decide

/-- C4 (amended): within the token phase the handling is all-or-nothing —
if tokenization fails coverage or the token loop fails (unresolved key, or
a falsy description value), the line renders as exactly
`"Unrecognized command"`, all partial annotations discarded.  (Outside the
token phase the `%` marker returns its unwrapped description even when
missing or empty; and a scope lookup returns the raw sub-rule value
without unwrapping, so a dict-shaped sub-rule is truthy even with a
missing description and is rendered as its repr instead of failing.) -/
theorem c4_all_or_nothing (d : Store) (line : String)
    (h : inTokenPhase d line = true)
    (hfail :
      (findTokens (upList (pstrip (codeOf (rstripNl line.data)).code))).flatten ≠
          nospace (upList (pstrip (codeOf (rstripNl line.data)).code)) ∨
        processTokens d none 0
          (findTokens (upList (pstrip (codeOf (rstripNl line.data)).code))) =
          none) :
    describe_line d line = some "Unrecognized command" := by
  have hcode : (pstrip (codeOf (rstripNl line.data)).code).isEmpty = false := by
    unfold inTokenPhase at h
    simpa using ((Bool.and_eq_true _ _).mp h).2
  have hr : reachesTokenizer d line = true := by
    unfold inTokenPhase at h
    exact ((Bool.and_eq_true _ _).mp h).1
  rw [describe_line_token hr]
  unfold describeTokens
  rw [if_neg (by simp [hcode])]
  rcases hfail with hcov | hloop
  · rw [if_neg hcov]
  · by_cases hcov : (findTokens (upList (pstrip (codeOf (rstripNl line.data)).code))).flatten =
        nospace (upList (pstrip (codeOf (rstripNl line.data)).code))
    · rw [if_pos hcov, hloop]
    · rw [if_neg hcov]

/-- Witness for C4 (amended): an unresolvable token makes the whole line
`"Unrecognized command"`. -/
theorem c4_all_or_nothing_witness :
    describe_line [] "Q5" = some "Unrecognized command" :=
  c4_all_or_nothing [] "Q5" (by decide) (Or.inr (by decide))

/-- C7: rendering order — when every token resolves (the loop succeeds
with annotations `rs`, one per token, each suffixed `" = <value>"` exactly
when the resolution carried a value), the output is `rs` in original order,
then `"Checksum = <digits>"` if a checksum was present, then
`"Comment - <text>"` if an inline comment was present, joined by `", "`. -/
theorem c7_rendering_order (d : Store) (line : String) (rs : List String)
    (h : inTokenPhase d line = true)
    (hcov : (findTokens (upList (pstrip (codeOf (rstripNl line.data)).code))).flatten =
      nospace (upList (pstrip (codeOf (rstripNl line.data)).code)))
    (hloop : processTokens d none 0
        (findTokens (upList (pstrip (codeOf (rstripNl line.data)).code))) =
      some rs) :
    describe_line d line =
      some (joinComma (annsOf rs (codeOf (rstripNl line.data)))) := by
  have hcode : (pstrip (codeOf (rstripNl line.data)).code).isEmpty = false := by
    unfold inTokenPhase at h
    simpa using ((Bool.and_eq_true _ _).mp h).2
  have hr : reachesTokenizer d line = true := by
    unfold inTokenPhase at h
    exact ((Bool.and_eq_true _ _).mp h).1
  have hne : pstrip (codeOf (rstripNl line.data)).code ≠ [] := by
    simpa using hcode
  have hflat : (findTokens (upList (pstrip (codeOf (rstripNl line.data)).code))).flatten ≠ [] := by
    rw [hcov, nospace_upList, nospace_pstrip]
    have := nospace_ne_nil hne
    simpa [upList] using this
  have htoks : findTokens (upList (pstrip (codeOf (rstripNl line.data)).code)) ≠ [] := by
    intro hc
    rw [hc] at hflat
    simp at hflat
  rw [describe_line_token hr]
  unfold describeTokens
  rw [if_neg (by simp [hcode]), if_pos hcov, hloop]
  simp only
  rw [if_neg]
  cases htk : findTokens (upList (pstrip (codeOf (rstripNl line.data)).code)) with
  | nil => exact absurd htk htoks
  | cons t ts =>
    rw [htk] at hloop
    obtain ⟨a, rs2, hrs, hane⟩ := processTokens_cons_shape hloop
    rw [hrs]
    unfold annsOf
    simp only [List.cons_append]
    exact joinComma_cons_ne _ hane

/-- Witness for C7 at the spec's checksum example extended with a comment. -/
theorem c7_rendering_order_witness :
    describe_line [("G1", Entry.str "Linear move"), ("X", Entry.str "X axis")]
        "G1 X1 (warm) *23" =
      some "Linear move, X axis = 1, Checksum = 23, Comment - warm" := by
  have := c7_rendering_order
    [("G1", Entry.str "Linear move"), ("X", Entry.str "X axis")]
    "G1 X1 (warm) *23" ["Linear move", "X axis = 1"]
    (by decide) (by decide) (by decide)
  exact this.trans (by decide)

/-- C8, counterexample: store keys are matched case-sensitively, so a
store whose only key is lowercase `"g"` does not describe the lines that
the uppercase `"G"` store describes. -/
theorem c8_counterexample :
    describe_line [("g", Entry.str "Gee")] "g1" = some "Unrecognized command" ∧
      describe_line [("G", Entry.str "Gee")] "g1" = some "Gee = 1" := by
  constructor
  · decide
  · decide

theorem isEmpty_upList (l : List Char) : (upList l).isEmpty = l.isEmpty := by
  cases l <;> rfl

/-- C8 (amended): case handling is one-sided — the line's code portion is
uppercased before tokenization and lookup, so the token phase cannot
distinguish a code portion from its uppercased form; store keys, however,
are compared verbatim, so only keys written in uppercase (or non-letter
keys) can ever match. -/
theorem c8_upper_invariance (d : Store) (code : List Char)
    (chk : Option (List Char)) (com : Option String) :
    describeTokens d ⟨code, chk, com⟩ = describeTokens d ⟨upList code, chk, com⟩ := by
  have h1 : pstrip (upList code) = upList (pstrip code) := pstrip_upList code
  unfold describeTokens
  dsimp only
  rw [h1, upList_idem, isEmpty_upList]
  rfl

/-- C9: describing a document line by line is pure and scope-isolated —
the annotation of a line in any document position is exactly
`describe_line` of that line and the store, independent of every other
line (so repeated calls agree and no `Scoped` sub-rules leak across
lines). -/
theorem c9_purity_and_isolation (d : Store) (pre post : List String)
    (l : String) :
    (describeDoc d (pre ++ l :: post)).get? pre.length =
      some (describe_line d l) := by
  have hblank : (if l = "" then some "" else describe_line d l) =
      describe_line d l := by
    split
    · rename_i hs; subst hs; rfl
    · rfl
  unfold describeDoc
  induction pre with
  | nil => simpa using hblank
  | cons a rest ih => simpa using ih

end GCM

